import Mathlib

/-!
Shallow embedding of the task-bidding core of `src/gangbot.py`.

The Python program is a Flask app over a SQLite store with two models,
`Task` and `Bid`, routes `create_task`, `submit_bid`, `evaluate_bids`,
and a periodic sweep `close_expired_tasks`.  We embed the store as a
`DBState` (lists of rows in insertion order, plus the next autoincrement
primary keys) and each route handler as a state-passing function.  The
clock (`datetime.utcnow()`) is passed explicitly as `now : Int`
(timestamps and durations as integers; `price` is a `Float` column in
the source, modelled as `Int` since the program only ever compares
prices, never does float arithmetic on them).

Python's `min(xs, key=f)` keeps the current minimum and replaces it only
when a later element's key is strictly smaller, so it returns the first
element attaining the minimal key; `minByKey` mirrors that exactly.
-/

namespace Gangbot

/-- `class Task(db.Model)` of `src/gangbot.py` (lines 16-22). -/
structure Task where
  id : Nat
  title : String
  description : String
  deadline : Int
  criteria : String
  created_at : Int
deriving DecidableEq

/-- `class Bid(db.Model)` of `src/gangbot.py` (lines 24-30). -/
structure Bid where
  id : Nat
  task_id : Nat
  bidder : String
  price : Int
  completion_time : Int
  submitted_at : Int
deriving DecidableEq

/-- The SQLite database: rows of each table in insertion order, plus the
next autoincrement primary key for each table. -/
structure DBState where
  tasks : List Task
  bids : List Bid
  nextTaskId : Nat
  nextBidId : Nat
deriving DecidableEq

/-- `find_task` (line 37): `Task.query.get(task_id)`, primary-key lookup. -/
def find_task (s : DBState) (task_id : Nat) : Option Task :=
  s.tasks.find? (fun t => t.id == task_id)

/-- `Bid.query.filter_by(task_id=task_id).all()` (line 108). -/
def bidsFor (s : DBState) (task_id : Nat) : List Bid :=
  s.bids.filter (fun b => b.task_id == task_id)

/-- `create_task` (lines 42-59): builds the Task from the request fields
and commits it.  There is no validation in the handler; `created_at`
comes from the column default `datetime.utcnow`. -/
def create_task (s : DBState) (now : Int) (title description : String)
    (deadline : Int) (criteria : String) : Task × DBState :=
  let task : Task :=
    { id := s.nextTaskId, title := title, description := description,
      deadline := deadline, criteria := criteria, created_at := now }
  (task, { s with tasks := s.tasks ++ [task], nextTaskId := s.nextTaskId + 1 })

/-- `submit_bid` (lines 79-99): 404 (`none`) when the task is absent,
otherwise the bid is built from the request fields and committed.  The
handler checks nothing else: no deadline check, no field validation. -/
def submit_bid (s : DBState) (now : Int) (task_id : Nat) (bidder : String)
    (price completion_time : Int) : Option (Bid × DBState) :=
  match find_task s task_id with
  | none => none
  | some task =>
      let bid : Bid :=
        { id := s.nextBidId, task_id := task.id, bidder := bidder,
          price := price, completion_time := completion_time,
          submitted_at := now }
      some (bid, { s with bids := s.bids ++ [bid], nextBidId := s.nextBidId + 1 })

/-- The four outcomes of `evaluate_bids`: the winner JSON (200), or the
404/404/400 error responses. -/
inductive EvalOutcome where
  | winner (bid : Bid)
  | taskNotFound
  | noBids
  | unknownCriteria
deriving DecidableEq

/-- Python's `min(b :: l, key)`: scan left to right, replace the current
minimum only when the new key is strictly smaller. -/
def minByKey (key : Bid → Int) : Bid → List Bid → Bid
  | best, [] => best
  | best, x :: xs => minByKey key (if key x < key best then x else best) xs

/-- `evaluate_bids` (lines 103-126).  The handler only reads: it fetches
the task and its bids and returns a response; the state component of the
result is the session it leaves behind, untouched in every branch. -/
def evaluate_bids (s : DBState) (task_id : Nat) : EvalOutcome × DBState :=
  match find_task s task_id with
  | none => (.taskNotFound, s)
  | some task =>
    match bidsFor s task_id with
    | [] => (.noBids, s)
    | b :: rest =>
      if task.criteria = "lowest price" then
        (.winner (minByKey (fun x => x.price) b rest), s)
      else if task.criteria = "fastest completion" then
        (.winner (minByKey (fun x => x.completion_time) b rest), s)
      else (.unknownCriteria, s)

/-- `close_expired_tasks` (lines 129-136): fetch `now`, select the tasks
with `deadline < now`, delete each of those task rows, and report the
count.  The `Bid` table is not touched: there is no `relationship` with
a cascade and SQLite does not enforce the foreign key. -/
def close_expired_tasks (s : DBState) (now : Int) : Nat × DBState :=
  let expired_tasks := s.tasks.filter (fun t => decide (t.deadline < now))
  (expired_tasks.length,
    { s with tasks := s.tasks.filter (fun t => decide (¬ t.deadline < now)) })

/-! ### Lemmas about `minByKey` (Python `min` with a key) -/

lemma minByKey_mem (key : Bid → Int) (b : Bid) (l : List Bid) :
    minByKey key b l ∈ b :: l := by
  induction l generalizing b with
  | nil => simp [minByKey]
  | cons x xs ih =>
    rw [minByKey]
    split
    · exact List.mem_cons_of_mem b (ih x)
    · rcases List.mem_cons.mp (ih b) with h | h
      · rw [h]; exact List.mem_cons_self _ _
      · exact List.mem_cons_of_mem _ (List.mem_cons_of_mem _ h)

lemma minByKey_le (key : Bid → Int) (b : Bid) (l : List Bid) :
    ∀ y ∈ b :: l, key (minByKey key b l) ≤ key y := by
  induction l generalizing b with
  | nil =>
    intro y hy
    simp only [List.mem_cons, List.not_mem_nil, or_false] at hy
    subst hy
    simp [minByKey]
  | cons x xs ih =>
    intro y hy
    rw [minByKey]
    rcases List.mem_cons.mp hy with rfl | hy'
    · split
      · next h =>
        exact le_of_lt (lt_of_le_of_lt (ih x x (List.mem_cons_self x xs)) h)
      · exact ih y y (List.mem_cons_self y xs)
    · rcases List.mem_cons.mp hy' with rfl | hy''
      · split
        · exact ih y y (List.mem_cons_self y xs)
        · next h =>
          exact le_trans (ih b b (List.mem_cons_self b xs)) (not_lt.mp h)
      · split
        · exact ih x y (List.mem_cons_of_mem x hy'')
        · exact ih b y (List.mem_cons_of_mem b hy'')

lemma minByKey_first (key : Bid → Int) (b : Bid) (l : List Bid) :
    ∃ l₁ l₂, b :: l = l₁ ++ minByKey key b l :: l₂ ∧
      ∀ y ∈ l₁, key (minByKey key b l) < key y := by
  induction l generalizing b with
  | nil => exact ⟨[], [], by simp [minByKey], by simp⟩
  | cons x xs ih =>
    rw [minByKey]
    split
    · next h =>
      obtain ⟨l₁, l₂, heq, hlt⟩ := ih x
      refine ⟨b :: l₁, l₂, ?_, ?_⟩
      · simpa using congrArg (List.cons b) heq
      · intro y hy
        rcases List.mem_cons.mp hy with rfl | hy'
        · exact lt_of_le_of_lt (minByKey_le key x xs x (List.mem_cons_self x xs)) h
        · exact hlt y hy'
    · next h =>
      obtain ⟨l₁, l₂, heq, hlt⟩ := ih b
      cases l₁ with
      | nil =>
        simp only [List.nil_append] at heq
        injection heq with h1 h2
        refine ⟨[], x :: l₂, ?_, by simp⟩
        rw [List.nil_append, ← h1, ← h2]
      | cons b' l₁' =>
        simp only [List.cons_append] at heq
        injection heq with h1 h2
        refine ⟨b :: x :: l₁', l₂, ?_, ?_⟩
        · simp only [List.cons_append]
          exact congrArg (fun l => b :: x :: l) h2
        · intro y hy
          have hwb : key (minByKey key b xs) < key b := by
            have := hlt b' (List.mem_cons_self b' l₁')
            rwa [← h1] at this
          rcases List.mem_cons.mp hy with rfl | hy'
          · exact hwb
          · rcases List.mem_cons.mp hy' with rfl | hy''
            · exact lt_of_lt_of_le hwb (not_lt.mp h)
            · exact hlt y (List.mem_cons_of_mem b' hy'')

/-! ### Unfolding lemmas for `evaluate_bids` -/

lemma evaluate_bids_none (s : DBState) (tid : Nat)
    (hf : find_task s tid = none) :
    evaluate_bids s tid = (.taskNotFound, s) := by
  unfold evaluate_bids
  rw [hf]

lemma evaluate_bids_nil (s : DBState) (tid : Nat) (t : Task)
    (hf : find_task s tid = some t) (hb : bidsFor s tid = []) :
    evaluate_bids s tid = (.noBids, s) := by
  unfold evaluate_bids
  rw [hf, hb]

lemma evaluate_bids_cons (s : DBState) (tid : Nat) (t : Task) (b : Bid)
    (rest : List Bid)
    (hf : find_task s tid = some t) (hb : bidsFor s tid = b :: rest) :
    evaluate_bids s tid =
      if t.criteria = "lowest price" then
        (.winner (minByKey (fun x => x.price) b rest), s)
      else if t.criteria = "fastest completion" then
        (.winner (minByKey (fun x => x.completion_time) b rest), s)
      else (.unknownCriteria, s) := by
  unfold evaluate_bids
  rw [hf, hb]

/-! ### Claim theorems -/

/-- C1: for a task with the `"lowest price"` criterion and a non-empty
bid list, `evaluate_bids` returns a winner drawn from the task's bids
whose `price` is minimal among them; for `"fastest completion"`, a
winner whose `completion_time` is minimal among them. -/
theorem evaluate_selects_minimum (s : DBState) (tid : Nat) (t : Task)
    (hf : find_task s tid = some t) (hne : bidsFor s tid ≠ []) :
    (t.criteria = "lowest price" →
      ∃ w, (evaluate_bids s tid).1 = .winner w ∧ w ∈ bidsFor s tid ∧
        ∀ b ∈ bidsFor s tid, w.price ≤ b.price) ∧
    (t.criteria = "fastest completion" →
      ∃ w, (evaluate_bids s tid).1 = .winner w ∧ w ∈ bidsFor s tid ∧
        ∀ b ∈ bidsFor s tid, w.completion_time ≤ b.completion_time) := by
  obtain ⟨b, rest, hb⟩ := List.exists_cons_of_ne_nil hne
  have hev := evaluate_bids_cons s tid t b rest hf hb
  constructor
  · intro hc
    rw [hev, if_pos hc]
    refine ⟨minByKey (fun x => x.price) b rest, rfl, ?_, ?_⟩
    · rw [hb]; exact minByKey_mem _ b rest
    · intro y hy
      rw [hb] at hy
      exact minByKey_le (fun x => x.price) b rest y hy
  · intro hc
    have hnotlp : ¬ t.criteria = "lowest price" := by
      rw [hc]; decide
    rw [hev, if_neg hnotlp, if_pos hc]
    refine ⟨minByKey (fun x => x.completion_time) b rest, rfl, ?_, ?_⟩
    · rw [hb]; exact minByKey_mem _ b rest
    · intro y hy
      rw [hb] at hy
      exact minByKey_le (fun x => x.completion_time) b rest y hy

/-- The `"lowest price"` task of the spec's first scenario. -/
def lpTask : Task :=
  { id := 1, title := "Paint fence", description := "d",
    deadline := 100, criteria := "lowest price", created_at := 0 }

/-- A store holding `lpTask` and two bids for it; bid B has the strictly
smallest price. -/
def lpState : DBState :=
  { tasks := [lpTask],
    bids := [{ id := 1, task_id := 1, bidder := "A", price := 50,
               completion_time := 3, submitted_at := 1 },
             { id := 2, task_id := 1, bidder := "B", price := 40,
               completion_time := 5, submitted_at := 2 }],
    nextTaskId := 2, nextBidId := 3 }

theorem evaluate_selects_minimum_witness :
    find_task lpState 1 = some lpTask ∧ bidsFor lpState 1 ≠ [] ∧
    ((lpTask.criteria = "lowest price" →
      ∃ w, (evaluate_bids lpState 1).1 = .winner w ∧ w ∈ bidsFor lpState 1 ∧
        ∀ b ∈ bidsFor lpState 1, w.price ≤ b.price) ∧
    (lpTask.criteria = "fastest completion" →
      ∃ w, (evaluate_bids lpState 1).1 = .winner w ∧ w ∈ bidsFor lpState 1 ∧
        ∀ b ∈ bidsFor lpState 1, w.completion_time ≤ b.completion_time)) :=
  ⟨by decide, by decide,
    evaluate_selects_minimum lpState 1 lpTask (by decide) (by decide)⟩

/-- C5: on an existing task with zero bids, `evaluate_bids` answers
`noBids` and never a winner. -/
theorem evaluate_empty_noBids (s : DBState) (tid : Nat) (t : Task)
    (hf : find_task s tid = some t) (hb : bidsFor s tid = []) :
    (evaluate_bids s tid).1 = .noBids ∧
      ∀ w : Bid, (evaluate_bids s tid).1 ≠ .winner w := by
  rw [evaluate_bids_nil s tid t hf hb]
  exact ⟨rfl, fun w => by simp⟩

/-- `lpTask` with an empty bid table. -/
def noBidsState : DBState :=
  { tasks := [lpTask], bids := [], nextTaskId := 2, nextBidId := 1 }

theorem evaluate_empty_noBids_witness :
    find_task noBidsState 1 = some lpTask ∧ bidsFor noBidsState 1 = [] ∧
    ((evaluate_bids noBidsState 1).1 = .noBids ∧
      ∀ w : Bid, (evaluate_bids noBidsState 1).1 ≠ .winner w) :=
  ⟨by decide, by decide,
    evaluate_empty_noBids noBidsState 1 lpTask (by decide) (by decide)⟩

/-- C9: on an existing task whose `criteria` is neither recognized
string, `evaluate_bids` with a non-empty bid list answers
`unknownCriteria` and never a winner. -/
theorem evaluate_unknown_criteria (s : DBState) (tid : Nat) (t : Task)
    (hf : find_task s tid = some t) (hne : bidsFor s tid ≠ [])
    (h1 : t.criteria ≠ "lowest price")
    (h2 : t.criteria ≠ "fastest completion") :
    (evaluate_bids s tid).1 = .unknownCriteria ∧
      ∀ w : Bid, (evaluate_bids s tid).1 ≠ .winner w := by
  obtain ⟨b, rest, hb⟩ := List.exists_cons_of_ne_nil hne
  rw [evaluate_bids_cons s tid t b rest hf hb, if_neg h1, if_neg h2]
  exact ⟨rfl, fun w => by simp⟩

/-- A task whose `criteria` string is not one of the two recognized
values, with one bid. -/
def oddTask : Task :=
  { id := 1, title := "t", description := "d", deadline := 100,
    criteria := "highest quality", created_at := 0 }

def oddState : DBState :=
  { tasks := [oddTask],
    bids := [{ id := 1, task_id := 1, bidder := "A", price := 5,
               completion_time := 2, submitted_at := 1 }],
    nextTaskId := 2, nextBidId := 2 }

theorem evaluate_unknown_criteria_witness :
    find_task oddState 1 = some oddTask ∧ bidsFor oddState 1 ≠ [] ∧
      oddTask.criteria ≠ "lowest price" ∧
      oddTask.criteria ≠ "fastest completion" ∧
    ((evaluate_bids oddState 1).1 = .unknownCriteria ∧
      ∀ w : Bid, (evaluate_bids oddState 1).1 ≠ .winner w) :=
  ⟨by decide, by decide, by decide, by decide,
    evaluate_unknown_criteria oddState 1 oddTask (by decide) (by decide)
      (by decide) (by decide)⟩

/-- C8: `evaluate_bids` is a pure query: it leaves the store unchanged
in every branch, and running it again on the state it returns gives the
same answer. -/
theorem evaluate_pure_query (s : DBState) (tid : Nat) :
    (evaluate_bids s tid).2 = s ∧
      evaluate_bids (evaluate_bids s tid).2 tid = evaluate_bids s tid := by
  have h2 : (evaluate_bids s tid).2 = s := by
    unfold evaluate_bids
    split
    · rfl
    · split
      · rfl
      · split
        · rfl
        · split
          · rfl
          · rfl
  exact ⟨h2, by rw [h2]⟩

/-- C10: the winner is the first bid in the stored bid order attaining
the minimal key (`price` under `"lowest price"`, `completion_time` under
`"fastest completion"`): every bid strictly earlier in the list has a
strictly larger key.  Moreover the outcome is determined by the task and
the bid sequence alone, so evaluation is deterministic. -/
theorem evaluate_first_minimal (s : DBState) (tid : Nat) (t : Task)
    (w : Bid) (hf : find_task s tid = some t)
    (hw : (evaluate_bids s tid).1 = .winner w) :
    (t.criteria = "lowest price" →
      ∃ l₁ l₂, bidsFor s tid = l₁ ++ w :: l₂ ∧
        ∀ y ∈ l₁, w.price < y.price) ∧
    (t.criteria = "fastest completion" →
      ∃ l₁ l₂, bidsFor s tid = l₁ ++ w :: l₂ ∧
        ∀ y ∈ l₁, w.completion_time < y.completion_time) ∧
    (∀ s₂ : DBState, find_task s₂ tid = find_task s tid →
      bidsFor s₂ tid = bidsFor s tid →
        (evaluate_bids s₂ tid).1 = .winner w) := by
  cases hb : bidsFor s tid with
  | nil =>
    rw [evaluate_bids_nil s tid t hf hb] at hw
    exact absurd hw (by simp)
  | cons b rest =>
    have hev := evaluate_bids_cons s tid t b rest hf hb
    by_cases hc1 : t.criteria = "lowest price"
    · rw [hev, if_pos hc1] at hw
      have hw' : minByKey (fun x => x.price) b rest = w := by
        simpa using hw
      refine ⟨fun _ => ?_, fun hc2 => ?_, fun s₂ hf2 hb2 => ?_⟩
      · obtain ⟨l₁, l₂, heq, hlt⟩ := minByKey_first (fun x => x.price) b rest
        rw [hw'] at heq hlt
        exact ⟨l₁, l₂, heq, fun y hy => hlt y hy⟩
      · rw [hc1] at hc2
        exact absurd hc2 (by decide)
      · rw [evaluate_bids_cons s₂ tid t b rest (hf2.trans hf)
          hb2, if_pos hc1]
        simpa using hw'
    · by_cases hc2 : t.criteria = "fastest completion"
      · rw [hev, if_neg hc1, if_pos hc2] at hw
        have hw' : minByKey (fun x => x.completion_time) b rest = w := by
          simpa using hw
        refine ⟨fun hc1' => absurd hc1' hc1, fun _ => ?_, fun s₂ hf2 hb2 => ?_⟩
        · obtain ⟨l₁, l₂, heq, hlt⟩ :=
            minByKey_first (fun x => x.completion_time) b rest
          rw [hw'] at heq hlt
          exact ⟨l₁, l₂, heq, fun y hy => hlt y hy⟩
        · rw [evaluate_bids_cons s₂ tid t b rest (hf2.trans hf)
            hb2, if_neg hc1, if_pos hc2]
          simpa using hw'
      · rw [hev, if_neg hc1, if_neg hc2] at hw
        exact absurd hw (by simp)

/-- A `"lowest price"` task with a tie: bids B and C share the minimal
price 3, B earlier in insertion order. -/
def tieTask : Task :=
  { id := 1, title := "t", description := "d", deadline := 100,
    criteria := "lowest price", created_at := 0 }

def tieBid2 : Bid :=
  { id := 2, task_id := 1, bidder := "B", price := 3,
    completion_time := 7, submitted_at := 2 }

def tieState : DBState :=
  { tasks := [tieTask],
    bids := [{ id := 1, task_id := 1, bidder := "A", price := 5,
               completion_time := 9, submitted_at := 1 },
             tieBid2,
             { id := 3, task_id := 1, bidder := "C", price := 3,
               completion_time := 1, submitted_at := 3 }],
    nextTaskId := 2, nextBidId := 4 }

theorem evaluate_first_minimal_witness :
    find_task tieState 1 = some tieTask ∧
    (evaluate_bids tieState 1).1 = .winner tieBid2 ∧
    ((tieTask.criteria = "lowest price" →
      ∃ l₁ l₂, bidsFor tieState 1 = l₁ ++ tieBid2 :: l₂ ∧
        ∀ y ∈ l₁, tieBid2.price < y.price) ∧
    (tieTask.criteria = "fastest completion" →
      ∃ l₁ l₂, bidsFor tieState 1 = l₁ ++ tieBid2 :: l₂ ∧
        ∀ y ∈ l₁, tieBid2.completion_time < y.completion_time) ∧
    (∀ s₂ : DBState, find_task s₂ 1 = find_task tieState 1 →
      bidsFor s₂ 1 = bidsFor tieState 1 →
        (evaluate_bids s₂ 1).1 = .winner tieBid2)) :=
  ⟨by decide, by decide,
    evaluate_first_minimal tieState 1 tieTask tieBid2 (by decide)
      (by decide)⟩

/-- C4 (amended): `create_task` performs no validation at all — it
persists a task built from whatever fields arrive, with `created_at`
set to the current time; when the deadline is strictly in the future
the persisted task does satisfy `created_at ≤ deadline`. -/
theorem create_task_always_persists (s : DBState) (now : Int)
    (title description : String) (deadline : Int) (criteria : String) :
    (create_task s now title description deadline criteria).1.created_at
        = now ∧
    (create_task s now title description deadline criteria).1 ∈
      (create_task s now title description deadline criteria).2.tasks ∧
    (now < deadline →
      (create_task s now title description deadline criteria).1.created_at
        ≤ deadline) := by
  refine ⟨rfl, ?_, fun h => le_of_lt h⟩
  simp [create_task]

/-- The empty store. -/
def emptyState : DBState :=
  { tasks := [], bids := [], nextTaskId := 1, nextBidId := 1 }

/-- C4 counterexample: at time 100, `create_task` with empty title and
description, deadline 50 already in the past, and the unrecognized
criteria string `"bogus"` does not reject: the store changes and the
persisted task carries all the invalid fields. -/
theorem create_task_no_validation_cex :
    (create_task emptyState 100 "" "" 50 "bogus").2.tasks ≠ [] ∧
    (create_task emptyState 100 "" "" 50 "bogus").1 ∈
      (create_task emptyState 100 "" "" 50 "bogus").2.tasks ∧
    (create_task emptyState 100 "" "" 50 "bogus").1.title = "" ∧
    (create_task emptyState 100 "" "" 50 "bogus").1.deadline <
      (create_task emptyState 100 "" "" 50 "bogus").1.created_at ∧
    (create_task emptyState 100 "" "" 50 "bogus").1.criteria = "bogus" := by
  decide

theorem create_task_always_persists_witness :
    (create_task emptyState 0 "t" "d" 10 "lowest price").1.created_at
        = 0 ∧
    (create_task emptyState 0 "t" "d" 10 "lowest price").1 ∈
      (create_task emptyState 0 "t" "d" 10 "lowest price").2.tasks ∧
    ((0 : Int) < 10 →
      (create_task emptyState 0 "t" "d" 10 "lowest price").1.created_at
        ≤ 10) :=
  create_task_always_persists emptyState 0 "t" "d" 10 "lowest price"

/-- C3 (amended): `submit_bid` never checks the deadline — against an
existing task whose deadline is already strictly in the past it still
succeeds and persists the bid.  Only a missing task is rejected. -/
theorem submit_bid_accepts_expired (s : DBState) (now : Int) (tid : Nat)
    (t : Task) (bidder : String) (price completion_time : Int)
    (hf : find_task s tid = some t) (hexp : t.deadline < now) :
    ∃ b s', submit_bid s now tid bidder price completion_time
        = some (b, s') ∧
      b ∈ s'.bids ∧ b.task_id = t.id ∧ b.submitted_at = now := by
  unfold submit_bid
  rw [hf]
  exact ⟨_, _, rfl, by simp, rfl, rfl⟩

/-- A stored task whose deadline 10 has already passed at time 20. -/
def expiredTask : Task :=
  { id := 1, title := "t", description := "d", deadline := 10,
    criteria := "lowest price", created_at := 0 }

def expiredState : DBState :=
  { tasks := [expiredTask], bids := [], nextTaskId := 2, nextBidId := 1 }

/-- The bid and store produced by the counterexample submission. -/
def expiredBid : Bid :=
  { id := 1, task_id := 1, bidder := "alice", price := 5,
    completion_time := 3, submitted_at := 20 }

def expiredState' : DBState :=
  { tasks := [expiredTask], bids := [expiredBid], nextTaskId := 2,
    nextBidId := 2 }

/-- C3 counterexample: at time 20 task 1 is stored with deadline 10 < 20,
yet `submit_bid` succeeds and persists the bid instead of failing. -/
theorem submit_bid_expired_cex :
    find_task expiredState 1 = some expiredTask ∧
    expiredTask.deadline < 20 ∧
    submit_bid expiredState 20 1 "alice" 5 3
        = some (expiredBid, expiredState') ∧
    expiredBid ∈ expiredState'.bids := by
  decide

theorem submit_bid_accepts_expired_witness :
    find_task expiredState 1 = some expiredTask ∧
    expiredTask.deadline < (20 : Int) ∧
    ∃ b s', submit_bid expiredState 20 1 "bob" 7 4 = some (b, s') ∧
      b ∈ s'.bids ∧ b.task_id = expiredTask.id ∧ b.submitted_at = 20 :=
  ⟨by decide, by decide,
    submit_bid_accepts_expired expiredState 20 1 expiredTask "bob" 7 4
      (by decide) (by decide)⟩

/-- C7 (amended): `submit_bid` does not validate the bid fields — a
negative price or a non-positive completion time is accepted and
persisted unchanged whenever the task exists. -/
theorem submit_bid_no_value_validation (s : DBState) (now : Int)
    (tid : Nat) (t : Task) (bidder : String) (price completion_time : Int)
    (hf : find_task s tid = some t)
    (hbad : price < 0 ∨ completion_time ≤ 0) :
    ∃ b s', submit_bid s now tid bidder price completion_time
        = some (b, s') ∧
      b ∈ s'.bids ∧ b.price = price ∧
      b.completion_time = completion_time := by
  unfold submit_bid
  rw [hf]
  exact ⟨_, _, rfl, by simp, rfl, rfl⟩

/-- A live task (deadline 100) with no bids yet. -/
def validTask : Task :=
  { id := 1, title := "t", description := "d", deadline := 100,
    criteria := "lowest price", created_at := 0 }

def validState : DBState :=
  { tasks := [validTask], bids := [], nextTaskId := 2, nextBidId := 1 }

/-- The bid and store produced by the counterexample submission. -/
def badBid : Bid :=
  { id := 1, task_id := 1, bidder := "M", price := -5,
    completion_time := 0, submitted_at := 5 }

def badState' : DBState :=
  { tasks := [validTask], bids := [badBid], nextTaskId := 2,
    nextBidId := 2 }

/-- C7 counterexample: a bid with price −5 and completion time 0 against
the live task 1 is accepted and persisted, not rejected. -/
theorem submit_bid_bad_values_cex :
    find_task validState 1 = some validTask ∧
    badBid.price < 0 ∧ badBid.completion_time ≤ 0 ∧
    submit_bid validState 5 1 "M" (-5) 0 = some (badBid, badState') ∧
    badBid ∈ badState'.bids := by
  decide

theorem submit_bid_no_value_validation_witness :
    find_task validState 1 = some validTask ∧
    ((-5 : Int) < 0 ∨ (0 : Int) ≤ 0) ∧
    ∃ b s', submit_bid validState 5 1 "M" (-5) 0 = some (b, s') ∧
      b ∈ s'.bids ∧ b.price = -5 ∧ b.completion_time = 0 :=
  ⟨by decide, by decide,
    submit_bid_no_value_validation validState 5 1 validTask "M" (-5) 0
      (by decide) (by decide)⟩

/-- An expired task (deadline 10) holding one bid. -/
def orphanTask : Task :=
  { id := 1, title := "t", description := "d", deadline := 10,
    criteria := "lowest price", created_at := 0 }

def orphanBid : Bid :=
  { id := 1, task_id := 1, bidder := "A", price := 5,
    completion_time := 2, submitted_at := 1 }

def orphanState : DBState :=
  { tasks := [orphanTask], bids := [orphanBid], nextTaskId := 2,
    nextBidId := 2 }

/-- C2 (code bug, evaluated at the failing input): at time 20 the sweep
deletes expired task 1 but leaves its bid in the store, so after the
sweep a bid remains whose `task_id` refers to no stored task. -/
theorem sweep_leaves_orphan_bid :
    orphanTask.deadline < 20 ∧
    (close_expired_tasks orphanState 20).2.tasks = [] ∧
    ∃ b ∈ (close_expired_tasks orphanState 20).2.bids,
      ∀ t ∈ (close_expired_tasks orphanState 20).2.tasks,
        t.id ≠ b.task_id := by
  decide

/-- Three tasks: one expired at time 20, one with deadline exactly 20,
one still live; the expired one holds a bid. -/
def c6Expired : Task :=
  { id := 1, title := "t", description := "d", deadline := 10,
    criteria := "lowest price", created_at := 0 }

def c6Boundary : Task :=
  { id := 2, title := "u", description := "e", deadline := 20,
    criteria := "lowest price", created_at := 0 }

def c6Live : Task :=
  { id := 3, title := "v", description := "f", deadline := 30,
    criteria := "lowest price", created_at := 0 }

def c6Bid : Bid :=
  { id := 1, task_id := 1, bidder := "A", price := 5,
    completion_time := 2, submitted_at := 1 }

def c6State : DBState :=
  { tasks := [c6Expired, c6Boundary, c6Live], bids := [c6Bid],
    nextTaskId := 4, nextBidId := 2 }

/-- The store the sweep actually produces at time 20. -/
def c6After : DBState :=
  { tasks := [c6Boundary, c6Live], bids := [c6Bid], nextTaskId := 4,
    nextBidId := 2 }

/-- C6 (code bug, evaluated at the failing input): at time 20 the sweep
removes exactly the task with deadline strictly before 20 (the deadline
= 20 task and the live task stay) and reports count 1, but the removed
task's bid survives: afterwards task 1 is gone while its bid is still
retrievable. -/
theorem sweep_removes_tasks_only :
    close_expired_tasks c6State 20 = (1, c6After) ∧
    find_task c6After 1 = none ∧ bidsFor c6After 1 ≠ [] := by
  decide

end Gangbot
